import Mathlib

/-!
Verification development for the dynamic-range estimator in
`src/dynamic_range.py`.

The pipeline of `calculate_dynamic_range` is embedded shallowly:

* pixel data is modelled over `ℚ` (the Python code computes on floating
  point; we use exact rationals for the data-flow part and `ℝ` for the
  final logarithmic conversion);
* the external decoders (`rawpy.imread` / `cv2.imread`) are modelled by a
  `SourceFile` record carrying what each decoder would produce for the
  file's bytes, since the decoders themselves are outside the repository;
* every exception that can be raised inside the `try:` block is modelled
  by a `PyExc` value, and the `except Exception` handler at the bottom of
  the function maps any of them to `none`, exactly as the Python code
  returns `None` on any failure.
-/

/-- Exceptions that can arise inside the `try:` block of
`calculate_dynamic_range`, by site. The generic handler collapses all of
them to `None`. -/
inductive PyExc where
  /-- `rawpy.imread` raised (corrupt / truncated raw file). -/
  | rawReadError
  /-- `cv2.imread` returned `None`, so `gray.astype(np.float32)` raised
  `AttributeError` on `NoneType`. -/
  | imreadNoneTypeError
  /-- `np.percentile` was applied to an empty array
  (`gray_filtered[gray_filtered > 0]` selected nothing). -/
  | emptySliceError
  /-- `np.percentile` was given a percentile outside `[0, 100]`. -/
  | percentileRangeError
deriving DecidableEq, Repr

/-- A luminance field: a 2D grid of samples, row-major. -/
abbrev Grid := List (List ℚ)

/-- Result of `rawpy.imread(...)` on the file's bytes. -/
inductive RawDecode where
  /-- `raw.raw_image` is 2-dimensional (monochrome sensor). -/
  | grayData (g : Grid)
  /-- `raw.raw_image` is multi-channel; `raw.postprocess(use_camera_wb=True,
  no_auto_bright=True)` yields this RGB image (channel order R, G, B as
  rawpy documents for `postprocess`). -/
  | rgbData (img : List (List (ℚ × ℚ × ℚ)))
  /-- `rawpy.imread` raises on these bytes. -/
  | readFailure
deriving DecidableEq

/-- Result of `cv2.imread(path, cv2.IMREAD_GRAYSCALE)` on the file's bytes. -/
inductive StdDecode where
  /-- Decoding succeeded with this 8-bit grayscale grid. -/
  | okGray (g : Grid)
  /-- `cv2.imread` returns `None` (unreadable / corrupt / unsupported). -/
  | readFailure
deriving DecidableEq

/-- An image source: its path plus what the two external decoders would
produce for its bytes. -/
structure SourceFile where
  path : String
  rawResult : RawDecode
  stdResult : StdDecode
deriving DecidableEq

/-- The raw-format extensions checked on line 22 of the source. -/
def raw_extensions : List String := [".arw", ".dng", ".nef", ".cr2", ".cr3", ".raf"]

/-- `name.lower().endswith(e)`, computed on the underlying character
lists (the names involved are ASCII). -/
def lowerEndsWith (name e : String) : Bool :=
  e.data.isSuffixOf (name.data.map Char.toLower)

/-- `image_path.lower().endswith(('.arw', '.dng', '.nef', '.cr2', '.cr3', '.raf'))`. -/
def isRawPath (path : String) : Bool :=
  raw_extensions.any (fun e => lowerEndsWith path e)

/-- `cv2.cvtColor(·, cv2.COLOR_BGR2GRAY)` on one pixel: OpenCV computes
`0.299 R + 0.587 G + 0.114 B` assuming the channels arrive in B, G, R
order, i.e. weight `0.114` on channel 0, `0.587` on channel 1, `0.299` on
channel 2. -/
def cvtColorBGR2GRAY (p : ℚ × ℚ × ℚ) : ℚ :=
  (114 / 1000) * p.1 + (587 / 1000) * p.2.1 + (299 / 1000) * p.2.2

/-- Lines 22-30 of the source: extension dispatch and decoding to a
single-channel grid. -/
def decodeStep (f : SourceFile) : Except PyExc Grid :=
  if isRawPath f.path then
    match f.rawResult with
    | .grayData g => .ok g
    | .rgbData img => .ok (img.map (fun row => row.map cvtColorBGR2GRAY))
    | .readFailure => .error .rawReadError
  else
    match f.stdResult with
    | .okGray g => .ok g
    | .readFailure => .error .imreadNoneTypeError

/-- Spatial weight of the bilateral filter for offset `(dx, dy)`.
Modelled from the spec: the smoothing step (`cv2.bilateralFilter`, an
external collaborator whose code is not in this repository) averages
spatially-nearby samples with a positive weight that decays with spatial
distance; `sigmaSpace = 7` enters through the fixed denominator `2·7² = 98`. -/
def spatialWeight (dx dy : Int) : ℚ :=
  1 / (1 + ((dx * dx + dy * dy : Int) : ℚ) / 98)

/-- Intensity weight of the bilateral filter for an intensity difference.
Modelled from the spec: the smoothing step weights intensity-nearby
samples higher, with a positive weight decaying in the squared intensity
difference; `sigmaColor = 75` enters through the fixed denominator
`2·75² = 11250`. -/
def intensityWeight (diff : ℚ) : ℚ :=
  1 / (1 + diff * diff / 11250)

/-- Pixel lookup with `Int` coordinates; `none` outside the grid. -/
def getPixelZ (g : Grid) (i j : Int) : Option ℚ :=
  if 0 ≤ i ∧ 0 ≤ j then
    match g[i.toNat]? with
    | some row => row[j.toNat]?
    | none => none
  else none

/-- The 81 offsets of the diameter-9 neighborhood (`d = 9` in the source). -/
def offsets : List (Int × Int) :=
  [-4, -3, -2, -1, 0, 1, 2, 3, 4].flatMap
    (fun dx => [-4, -3, -2, -1, 0, 1, 2, 3, 4].map (fun dy => ((dx : Int), (dy : Int))))

/-- Weight/value pairs of the neighborhood of pixel `(i, j)` with center
intensity `center`; offsets falling outside the grid contribute `(0, 0)`. -/
def bfTerms (g : Grid) (i j : Nat) (center : ℚ) : List (ℚ × ℚ) :=
  offsets.map (fun d =>
    match getPixelZ g ((i : Int) + d.1) ((j : Int) + d.2) with
    | some v => (spatialWeight d.1 d.2 * intensityWeight (v - center), v)
    | none => (0, 0))

/-- One output pixel of the smoothing filter: the normalized weighted
average of its neighborhood. -/
def bfPixel (g : Grid) (i j : Nat) (center : ℚ) : ℚ :=
  if ((bfTerms g i j center).map Prod.fst).sum = 0 then center
  else ((bfTerms g i j center).map (fun p => p.1 * p.2)).sum
    / ((bfTerms g i j center).map Prod.fst).sum

/-- Modelled from the spec: `cv2.bilateralFilter(gray.astype(np.float32),
d=9, sigmaColor=75, sigmaSpace=7)` (line 34 of the source; the filter's
code is external to this repository). Each output sample is a normalized
positive-weight average of the spatially- and intensity-nearby input
samples in a diameter-9 neighborhood. -/
def bilateralFilter (g : Grid) : Grid :=
  g.enum.map (fun p => p.2.enum.map (fun q => bfPixel g p.1 q.1 q.2))

/-- Row-major flattening of a grid (numpy boolean masking and
`np.percentile` see the samples in this order). -/
def flattenG : List (List ℚ) → List ℚ
  | [] => []
  | r :: rs => r ++ flattenG rs

/-- All samples of the smoothed luminance field, row-major. -/
def smoothedSamples (g : Grid) : List ℚ :=
  flattenG (bilateralFilter g)

/-- `gray_filtered[gray_filtered > 0]`: the strictly-positive samples. -/
def positives (xs : List ℚ) : List ℚ :=
  xs.filter (fun x => decide (0 < x))

/-- Sorting ascending, as `np.percentile` does internally. -/
def sortQ (xs : List ℚ) : List ℚ :=
  xs.insertionSort (· ≤ ·)

/-- The virtual rank `q·(n-1)/100` used by `np.percentile`'s default
linear-interpolation method on `n` sorted samples. -/
def vRank (q : ℚ) (n : ℕ) : ℚ := q * ((n : ℚ) - 1) / 100

/-- The lower interpolation index `⌊vRank⌋`. -/
def vIdx (q : ℚ) (n : ℕ) : ℕ := (⌊vRank q n⌋).toNat

/-- Linear interpolation of `np.percentile` (its default method) on an
already-sorted list `s`: the result interpolates between the samples at
`⌊vRank⌋` and the next index. -/
def interpolate (q : ℚ) (s : List ℚ) : ℚ :=
  s.getD (vIdx q s.length) 0
    + (vRank q s.length - (vIdx q s.length : ℚ))
      * (s.getD (min (vIdx q s.length + 1) (s.length - 1)) 0
          - s.getD (vIdx q s.length) 0)

/-- `np.percentile(xs, q)`: raises on an empty array or an out-of-range
percentile, otherwise linearly interpolates on the sorted data. -/
def percentile (q : ℚ) (xs : List ℚ) : Except PyExc ℚ :=
  if xs.isEmpty then .error .emptySliceError
  else if q < 0 ∨ 100 < q then .error .percentileRangeError
  else .ok (interpolate q (sortQ xs))

/-- The `1e-10` substituted for an exactly-zero `min_val` (line 42). -/
def EPS : ℚ := 1 / 10 ^ 10

/-- Lines 34-42 of the source: smooth, take the low percentile over the
strictly-positive samples, the high percentile over all samples, and apply
the division-by-zero guard to the low value. Returns `(max_val, min_val)`. -/
def extractStats (percentile_max percentile_min : ℚ) (g : Grid) :
    Except PyExc (ℚ × ℚ) :=
  match percentile percentile_min (positives (smoothedSamples g)) with
  | .error e => .error e
  | .ok minRaw =>
    match percentile percentile_max (smoothedSamples g) with
    | .error e => .error e
    | .ok maxVal => .ok (maxVal, if minRaw = 0 then EPS else minRaw)

/-- Line 45 of the source: `20 * np.log10(max_val / min_val)`. -/
noncomputable def stopsOf (maxVal minVal : ℚ) : ℝ :=
  20 * Real.logb 10 ((maxVal : ℝ) / (minVal : ℝ))

/-- The whole `try:` block (lines 20-51): decode, extract statistics,
convert to stops, clamp at 120. -/
noncomputable def tryBody (percentile_max percentile_min : ℚ) (f : SourceFile) :
    Except PyExc ℝ :=
  match decodeStep f with
  | .error e => .error e
  | .ok g =>
    match extractStats percentile_max percentile_min g with
    | .error e => .error e
    | .ok (maxVal, minVal) => .ok (min (stopsOf maxVal minVal) 120)

/-- `calculate_dynamic_range`: the `try:` body with the
`except Exception` handler that returns `None` on any failure.
`bits_per_pixel` is accepted and ignored, as in the source. -/
noncomputable def calculate_dynamic_range (f : SourceFile) (bits_per_pixel : ℕ)
    (percentile_max percentile_min : ℚ) : Option ℝ :=
  match tryBody percentile_max percentile_min f with
  | .ok v => some v
  | .error _ => none

/-- The stops value before the clamp of line 49, when the pipeline reaches
line 45 on this grid. -/
noncomputable def preClampStops (percentile_max percentile_min : ℚ) (g : Grid) :
    Option ℝ :=
  match extractStats percentile_max percentile_min g with
  | .error _ => none
  | .ok (maxVal, minVal) => some (stopsOf maxVal minVal)

/-- The extension list of the `__main__` block (line 59). -/
def image_extensions : List String :=
  [".jpg", ".jpeg", ".png", ".bmp", ".tif", ".tiff",
   ".arw", ".dng", ".nef", ".cr2", ".cr3", ".raf"]

/-- `any(filename.lower().endswith(ext) for ext in image_extensions)`. -/
def hasImageExtension (name : String) : Bool :=
  image_extensions.any (fun e => lowerEndsWith name e)

open Classical in
/-- The `__main__` loop (lines 61-67) over a directory listing: for each
file with a recognized extension it computes the estimate with the default
parameters and, under `if dynamic_range:` (Python truthiness: `None` and
`0.0` are falsy), emits the line data `(filename, value)`. -/
noncomputable def mainLoop (files : List SourceFile) : List (String × ℝ) :=
  files.filterMap (fun f =>
    if hasImageExtension f.path then
      match calculate_dynamic_range f 14 (999 / 10) (1 / 10) with
      | none => none
      | some v => if v = 0 then none else some (f.path, v)
    else none)

/-- A constant `m × n` grid. -/
def constGrid (m n : ℕ) (c : ℚ) : Grid :=
  List.replicate m (List.replicate n c)

/-- Modelled from the spec: the standard luma-weighted RGB-to-luminance
conversion the spec prescribes for the multi-channel raw path
(`0.299 R + 0.587 G + 0.114 B` applied to the R, G, B channels
respectively). -/
def lumaRec601 (r g b : ℚ) : ℚ :=
  (299 / 1000) * r + (587 / 1000) * g + (114 / 1000) * b

/-! ## Basic facts about the smoothing filter on constant fields -/

theorem spatialWeight_pos (dx dy : Int) : 0 < spatialWeight dx dy := by
  unfold spatialWeight
  have h : (0 : ℚ) ≤ ((dx * dx + dy * dy : Int) : ℚ) := by
    have := mul_self_nonneg dx
    have := mul_self_nonneg dy
    exact_mod_cast by positivity
  positivity

theorem intensityWeight_pos (diff : ℚ) : 0 < intensityWeight diff := by
  unfold intensityWeight
  have h : (0 : ℚ) ≤ diff * diff := mul_self_nonneg diff
  positivity

theorem getPixelZ_constGrid {m n : ℕ} {c : ℚ} {i j : Int} {v : ℚ}
    (h : getPixelZ (constGrid m n c) i j = some v) : v = c := by
  unfold getPixelZ constGrid at h
  split at h
  · cases hrow : (List.replicate m (List.replicate n c))[i.toNat]? with
    | none => rw [hrow] at h; exact absurd h (by simp)
    | some row =>
      rw [hrow] at h
      have hr : row = List.replicate n c :=
        List.eq_of_mem_replicate (List.getElem?_mem hrow)
      subst hr
      exact List.eq_of_mem_replicate (List.getElem?_mem h)
  · exact absurd h (by simp)

theorem sum_map_mul_of_const {L : List (ℚ × ℚ)} {c : ℚ}
    (h : ∀ p ∈ L, p.1 * p.2 = p.1 * c) :
    (L.map (fun p => p.1 * p.2)).sum = c * (L.map Prod.fst).sum := by
  induction L with
  | nil => simp
  | cons a l ih =>
    simp only [List.map_cons, List.sum_cons]
    rw [h a (List.mem_cons_self a l), ih (fun p hp => h p (List.mem_cons_of_mem a hp))]
    ring

theorem bfTerms_constGrid (m n : ℕ) (c : ℚ) (i j : ℕ) :
    ∀ p ∈ bfTerms (constGrid m n c) i j c, p.1 * p.2 = p.1 * c := by
  intro p hp
  unfold bfTerms at hp
  rcases List.mem_map.mp hp with ⟨d, _, rfl⟩
  cases hg : getPixelZ (constGrid m n c) ((i : Int) + d.1) ((j : Int) + d.2) with
  | none => simp [hg]
  | some v =>
    have hv : v = c := getPixelZ_constGrid hg
    simp [hg, hv]

theorem bfPixel_constGrid (m n : ℕ) (c : ℚ) (i j : ℕ) :
    bfPixel (constGrid m n c) i j c = c := by
  unfold bfPixel
  by_cases hden : ((bfTerms (constGrid m n c) i j c).map Prod.fst).sum = 0
  · rw [if_pos hden]
  · rw [if_neg hden, sum_map_mul_of_const (bfTerms_constGrid m n c i j),
      mul_div_assoc, div_self hden, mul_one]

theorem enumFrom_replicate {α : Type} (k : ℕ) (a : α) :
    ∀ s, List.enumFrom s (List.replicate k a) = (List.range' s k).map (fun i => (i, a)) := by
  induction k with
  | zero => intro s; simp
  | succ k ih =>
    intro s
    rw [List.replicate_succ, List.range'_succ s k 1]
    simp only [List.enumFrom, List.map_cons]
    rw [ih (s + 1)]

theorem bilateralFilter_constGrid (m n : ℕ) (c : ℚ) :
    bilateralFilter (constGrid m n c) = constGrid m n c := by
  unfold bilateralFilter
  have he : (constGrid m n c).enum
      = (List.range' 0 m).map (fun i => (i, List.replicate n c)) := by
    show List.enumFrom 0 (constGrid m n c) = _
    exact enumFrom_replicate m (List.replicate n c) 0
  rw [he, List.map_map]
  have hrow : ∀ i : ℕ,
      (List.replicate n c).enum.map
        (fun q => bfPixel (constGrid m n c) i q.1 q.2) = List.replicate n c := by
    intro i
    have he2 : (List.replicate n c).enum = (List.range' 0 n).map (fun j => (j, c)) := by
      show List.enumFrom 0 (List.replicate n c) = _
      exact enumFrom_replicate n c 0
    rw [he2, List.map_map]
    have : ((fun q : ℕ × ℚ => bfPixel (constGrid m n c) i q.1 q.2) ∘ fun j => (j, c))
        = fun j => bfPixel (constGrid m n c) i j c := rfl
    rw [this]
    calc (List.range' 0 n).map (fun j => bfPixel (constGrid m n c) i j c)
        = (List.range' 0 n).map (fun _ => c) :=
          List.map_congr_left (fun j _ => bfPixel_constGrid m n c i j)
      _ = List.replicate n c := by rw [List.map_const', List.length_range']
  calc (List.range' 0 m).map ((fun p : ℕ × List ℚ =>
          p.2.enum.map fun q => bfPixel (constGrid m n c) p.1 q.1 q.2) ∘ fun i =>
          (i, List.replicate n c))
      = (List.range' 0 m).map (fun _ => List.replicate n c) :=
        List.map_congr_left (fun i _ => hrow i)
    _ = constGrid m n c := by rw [List.map_const', List.length_range']; rfl

theorem flattenG_replicate (m n : ℕ) (c : ℚ) :
    flattenG (List.replicate m (List.replicate n c)) = List.replicate (m * n) c := by
  induction m with
  | zero => simp [flattenG]
  | succ m ih =>
    rw [List.replicate_succ]
    show List.replicate n c ++ flattenG (List.replicate m (List.replicate n c))
        = List.replicate ((m + 1) * n) c
    rw [ih, ← List.replicate_add]
    congr 1
    ring

theorem smoothedSamples_constGrid (m n : ℕ) (c : ℚ) :
    smoothedSamples (constGrid m n c) = List.replicate (m * n) c := by
  unfold smoothedSamples
  rw [bilateralFilter_constGrid]
  exact flattenG_replicate m n c

/-! ## Facts about the positive-sample selection -/

theorem mem_positives {xs : List ℚ} {x : ℚ} :
    x ∈ positives xs ↔ x ∈ xs ∧ 0 < x := by
  unfold positives
  simp [List.mem_filter]

theorem positives_replicate_zero (k : ℕ) : positives (List.replicate k 0) = [] := by
  unfold positives
  induction k with
  | zero => rfl
  | succ k ih => rw [List.replicate_succ, List.filter_cons]; simpa using ih

theorem positives_replicate_pos (k : ℕ) {c : ℚ} (hc : 0 < c) :
    positives (List.replicate k c) = List.replicate k c := by
  unfold positives
  induction k with
  | zero => rfl
  | succ k ih =>
    have hdc : (decide ((0 : ℚ) < c)) = true := by simpa using hc
    rw [List.replicate_succ, List.filter_cons, if_pos hdc, ih]

theorem positives_append_zeros (xs : List ℚ) (k : ℕ) :
    positives (xs ++ List.replicate k 0) = positives xs := by
  unfold positives
  rw [List.filter_append]
  have : (List.replicate k (0 : ℚ)).filter (fun x => decide (0 < x)) = [] :=
    positives_replicate_zero k
  rw [this, List.append_nil]

/-! ## Facts about the percentile computation -/

theorem vRank_nonneg {q : ℚ} {n : ℕ} (h0 : 0 ≤ q) (hn : 1 ≤ n) : 0 ≤ vRank q n := by
  unfold vRank
  have hcast : (1 : ℚ) ≤ (n : ℚ) := by exact_mod_cast hn
  have h : (0 : ℚ) ≤ (n : ℚ) - 1 := by linarith
  exact div_nonneg (mul_nonneg h0 h) (by norm_num)

theorem vRank_le {q : ℚ} {n : ℕ} (h1 : q ≤ 100) (hn : 1 ≤ n) :
    vRank q n ≤ (n : ℚ) - 1 := by
  unfold vRank
  have hcast : (1 : ℚ) ≤ (n : ℚ) := by exact_mod_cast hn
  rw [div_le_iff (by norm_num : (0 : ℚ) < 100)]
  nlinarith

theorem vRank_mono {q1 q2 : ℚ} {n : ℕ} (h : q1 ≤ q2) (hn : 1 ≤ n) :
    vRank q1 n ≤ vRank q2 n := by
  unfold vRank
  have hcast : (1 : ℚ) ≤ (n : ℚ) := by exact_mod_cast hn
  have hA : (0 : ℚ) ≤ (n : ℚ) - 1 := by linarith
  exact (div_le_div_iff_of_pos_right (by norm_num)).mpr (mul_le_mul_of_nonneg_right h hA)

theorem vIdx_cast {q : ℚ} {n : ℕ} (h0 : 0 ≤ q) (hn : 1 ≤ n) :
    ((vIdx q n : ℕ) : ℚ) = ((⌊vRank q n⌋ : ℤ) : ℚ) := by
  unfold vIdx
  have hf : (0 : ℤ) ≤ ⌊vRank q n⌋ := Int.floor_nonneg.mpr (vRank_nonneg h0 hn)
  have h2 : ((⌊vRank q n⌋.toNat : ℤ)) = ⌊vRank q n⌋ := Int.toNat_of_nonneg hf
  calc ((⌊vRank q n⌋.toNat : ℕ) : ℚ) = ((⌊vRank q n⌋.toNat : ℤ) : ℚ) := by push_cast; ring
    _ = ((⌊vRank q n⌋ : ℤ) : ℚ) := by rw [h2]

theorem vIdx_le_rank {q : ℚ} {n : ℕ} (h0 : 0 ≤ q) (hn : 1 ≤ n) :
    ((vIdx q n : ℕ) : ℚ) ≤ vRank q n := by
  rw [vIdx_cast h0 hn]
  exact Int.floor_le _

theorem rank_lt_vIdx_succ {q : ℚ} {n : ℕ} (h0 : 0 ≤ q) (hn : 1 ≤ n) :
    vRank q n < ((vIdx q n : ℕ) : ℚ) + 1 := by
  rw [vIdx_cast h0 hn]
  exact Int.lt_floor_add_one _

theorem vIdx_lt_length {q : ℚ} {n : ℕ} (h0 : 0 ≤ q) (h1 : q ≤ 100) (hn : 1 ≤ n) :
    vIdx q n < n := by
  have hA : ((vIdx q n : ℕ) : ℚ) ≤ (n : ℚ) - 1 := le_trans (vIdx_le_rank h0 hn) (vRank_le h1 hn)
  have : ((vIdx q n : ℕ) : ℚ) < (n : ℚ) := by linarith
  exact_mod_cast this

theorem vIdx_mono {q1 q2 : ℚ} {n : ℕ} (h : q1 ≤ q2) (hn : 1 ≤ n) :
    vIdx q1 n ≤ vIdx q2 n := by
  unfold vIdx
  exact Int.toNat_le_toNat (Int.floor_le_floor (vRank_mono h hn))

theorem getD_mem {s : List ℚ} {i : ℕ} (h : i < s.length) : s.getD i 0 ∈ s := by
  rw [List.getD_eq_getElem s 0 h]
  exact List.getElem_mem h

theorem sorted_getD_mono {s : List ℚ} (hs : List.Sorted (· ≤ ·) s) {i j : ℕ}
    (hij : i ≤ j) (hj : j < s.length) : s.getD i 0 ≤ s.getD j 0 := by
  rcases Nat.lt_or_ge i j with hlt | hge
  · have hi : i < s.length := lt_trans hlt hj
    rw [List.getD_eq_getElem s 0 hi, List.getD_eq_getElem s 0 hj]
    exact List.pairwise_iff_getElem.mp hs i j hi hj hlt
  · have heq : i = j := le_antisymm hij hge
    rw [heq]

theorem interpolate_of_const {s : List ℚ} {c q : ℚ} (hne : s ≠ [])
    (hall : ∀ x ∈ s, x = c) (h0 : 0 ≤ q) (h1 : q ≤ 100) : interpolate q s = c := by
  have hn : 1 ≤ s.length := List.length_pos.mpr hne
  have hi : vIdx q s.length < s.length := vIdx_lt_length h0 h1 hn
  have hm : min (vIdx q s.length + 1) (s.length - 1) < s.length := by omega
  unfold interpolate
  rw [hall _ (getD_mem hi), hall _ (getD_mem hm)]
  ring

theorem interpolate_pos {s : List ℚ} {q : ℚ} (hne : s ≠ [])
    (hall : ∀ x ∈ s, 0 < x) (h0 : 0 ≤ q) (h1 : q ≤ 100) : 0 < interpolate q s := by
  have hn : 1 ≤ s.length := List.length_pos.mpr hne
  have hi : vIdx q s.length < s.length := vIdx_lt_length h0 h1 hn
  have hm : min (vIdx q s.length + 1) (s.length - 1) < s.length := by omega
  have ha := hall _ (getD_mem hi)
  have hb := hall _ (getD_mem hm)
  have hf0 : (0 : ℚ) ≤ vRank q s.length - (vIdx q s.length : ℚ) :=
    sub_nonneg.mpr (vIdx_le_rank h0 hn)
  have hf1 : vRank q s.length - (vIdx q s.length : ℚ) < 1 := by
    have := rank_lt_vIdx_succ h0 hn
    linarith
  unfold interpolate
  nlinarith [mul_pos (show (0:ℚ) < 1 - (vRank q s.length - (vIdx q s.length : ℚ)) by linarith) ha,
    mul_nonneg hf0 hb.le]

theorem interpolate_mono {s : List ℚ} (hs : List.Sorted (· ≤ ·) s) (hne : s ≠ [])
    {q1 q2 : ℚ} (h0 : 0 ≤ q1) (h12 : q1 ≤ q2) (h100 : q2 ≤ 100) :
    interpolate q1 s ≤ interpolate q2 s := by
  have hn : 1 ≤ s.length := List.length_pos.mpr hne
  have h0' : 0 ≤ q2 := le_trans h0 h12
  have h1 : q1 ≤ 100 := le_trans h12 h100
  have hi1 : vIdx q1 s.length < s.length := vIdx_lt_length h0 h1 hn
  have hi2 : vIdx q2 s.length < s.length := vIdx_lt_length h0' h100 hn
  have hi12 : vIdx q1 s.length ≤ vIdx q2 s.length := vIdx_mono h12 hn
  have hm1 : min (vIdx q1 s.length + 1) (s.length - 1) < s.length := by omega
  have hm2 : min (vIdx q2 s.length + 1) (s.length - 1) < s.length := by omega
  have hr12 : vRank q1 s.length ≤ vRank q2 s.length := vRank_mono h12 hn
  have ha1b1 : s.getD (vIdx q1 s.length) 0
      ≤ s.getD (min (vIdx q1 s.length + 1) (s.length - 1)) 0 :=
    sorted_getD_mono hs (by omega) hm1
  have ha2b2 : s.getD (vIdx q2 s.length) 0
      ≤ s.getD (min (vIdx q2 s.length + 1) (s.length - 1)) 0 :=
    sorted_getD_mono hs (by omega) hm2
  have hf1lo : (0 : ℚ) ≤ vRank q1 s.length - (vIdx q1 s.length : ℚ) :=
    sub_nonneg.mpr (vIdx_le_rank h0 hn)
  have hf1hi : vRank q1 s.length - (vIdx q1 s.length : ℚ) < 1 := by
    have := rank_lt_vIdx_succ h0 hn
    linarith
  have hf2lo : (0 : ℚ) ≤ vRank q2 s.length - (vIdx q2 s.length : ℚ) :=
    sub_nonneg.mpr (vIdx_le_rank h0' hn)
  unfold interpolate
  rcases Nat.eq_or_lt_of_le hi12 with heq | hlt
  · rw [← heq]
    have hc12 : vRank q1 s.length - (vIdx q1 s.length : ℚ)
        ≤ vRank q2 s.length - (vIdx q1 s.length : ℚ) := by linarith
    nlinarith [mul_le_mul_of_nonneg_right hc12 (sub_nonneg.mpr ha1b1)]
  · have hb1a2 : s.getD (min (vIdx q1 s.length + 1) (s.length - 1)) 0
        ≤ s.getD (vIdx q2 s.length) 0 :=
      sorted_getD_mono hs (by omega) hi2
    nlinarith [mul_nonneg (show (0:ℚ) ≤ 1 - (vRank q1 s.length - (vIdx q1 s.length : ℚ)) by linarith)
        (sub_nonneg.mpr ha1b1),
      mul_nonneg hf2lo (sub_nonneg.mpr ha2b2)]

theorem sortQ_sorted (xs : List ℚ) : List.Sorted (· ≤ ·) (sortQ xs) :=
  List.sorted_insertionSort _ xs

theorem mem_sortQ {xs : List ℚ} {x : ℚ} : x ∈ sortQ xs ↔ x ∈ xs :=
  List.mem_insertionSort _

theorem sortQ_ne_nil {xs : List ℚ} (h : xs ≠ []) : sortQ xs ≠ [] := by
  intro hc
  rcases List.exists_mem_of_ne_nil xs h with ⟨x, hx⟩
  have := mem_sortQ.mpr hx
  rw [hc] at this
  exact absurd this (List.not_mem_nil x)

theorem percentile_ok_elim {q : ℚ} {xs : List ℚ} {v : ℚ}
    (h : percentile q xs = .ok v) :
    xs ≠ [] ∧ 0 ≤ q ∧ q ≤ 100 ∧ v = interpolate q (sortQ xs) := by
  unfold percentile at h
  by_cases hA : xs.isEmpty = true
  · rw [if_pos hA] at h
    exact absurd h (by simp)
  · rw [if_neg hA] at h
    by_cases hB : q < 0 ∨ 100 < q
    · rw [if_pos hB] at h
      exact absurd h (by simp)
    · rw [if_neg hB] at h
      push_neg at hB
      refine ⟨fun he => hA (by simp [he]), hB.1, hB.2, ?_⟩
      cases h
      rfl

theorem percentile_ok_intro {q : ℚ} {xs : List ℚ} (hne : xs ≠ [])
    (h0 : 0 ≤ q) (h1 : q ≤ 100) :
    percentile q xs = .ok (interpolate q (sortQ xs)) := by
  have hA : ¬(xs.isEmpty = true) := by simpa [List.isEmpty_iff] using hne
  have hB : ¬(q < 0 ∨ 100 < q) := by
    push_neg
    exact ⟨h0, h1⟩
  unfold percentile
  rw [if_neg hA, if_neg hB]

theorem percentile_const {xs : List ℚ} {c q : ℚ} (hne : xs ≠ [])
    (hall : ∀ x ∈ xs, x = c) (h0 : 0 ≤ q) (h1 : q ≤ 100) :
    percentile q xs = .ok c := by
  rw [percentile_ok_intro hne h0 h1,
    interpolate_of_const (sortQ_ne_nil hne) (fun x hx => hall x (mem_sortQ.mp hx)) h0 h1]

theorem percentile_pos {xs : List ℚ} {q v : ℚ} (hall : ∀ x ∈ xs, 0 < x)
    (h : percentile q xs = .ok v) : 0 < v := by
  obtain ⟨hne, h0, h1, rfl⟩ := percentile_ok_elim h
  exact interpolate_pos (sortQ_ne_nil hne) (fun x hx => hall x (mem_sortQ.mp hx)) h0 h1

theorem percentile_mono {xs : List ℚ} {q1 q2 v1 v2 : ℚ} (h12 : q1 ≤ q2)
    (hA : percentile q1 xs = .ok v1) (hB : percentile q2 xs = .ok v2) : v1 ≤ v2 := by
  obtain ⟨hne, h0, _, rfl⟩ := percentile_ok_elim hA
  obtain ⟨_, _, h1', rfl⟩ := percentile_ok_elim hB
  exact interpolate_mono (sortQ_sorted xs) (sortQ_ne_nil hne) h0 h12 h1'

/-! ## Facts about the statistic-extraction step -/

theorem extractStats_ok_elim {pmax pmin : ℚ} {g : Grid} {mx mn : ℚ}
    (h : extractStats pmax pmin g = .ok (mx, mn)) :
    ∃ minRaw, percentile pmin (positives (smoothedSamples g)) = .ok minRaw ∧
      percentile pmax (smoothedSamples g) = .ok mx ∧
      mn = (if minRaw = 0 then EPS else minRaw) := by
  unfold extractStats at h
  cases h1 : percentile pmin (positives (smoothedSamples g)) with
  | error e =>
    rw [h1] at h
    exact absurd h (by simp)
  | ok minRaw =>
    rw [h1] at h
    cases h2 : percentile pmax (smoothedSamples g) with
    | error e =>
      rw [h2] at h
      exact absurd h (by simp)
    | ok maxVal =>
      rw [h2] at h
      simp only [Except.ok.injEq, Prod.mk.injEq] at h
      refine ⟨minRaw, rfl, ?_, h.2.symm⟩
      rw [h.1]

theorem extractStats_of_steps {pmax pmin : ℚ} {g : Grid} {minRaw mx : ℚ}
    (h1 : percentile pmin (positives (smoothedSamples g)) = .ok minRaw)
    (h2 : percentile pmax (smoothedSamples g) = .ok mx) :
    extractStats pmax pmin g = .ok (mx, if minRaw = 0 then EPS else minRaw) := by
  unfold extractStats
  rw [h1, h2]

theorem extractStats_constGrid {m n : ℕ} {c : ℚ} (hm : 0 < m) (hn : 0 < n)
    (hc : 0 < c) {pmax pmin : ℚ} (ha : 0 ≤ pmax) (hb : pmax ≤ 100)
    (hd : 0 ≤ pmin) (he : pmin ≤ 100) :
    extractStats pmax pmin (constGrid m n c) = .ok (c, c) := by
  have hs := smoothedSamples_constGrid m n c
  have hmn : 0 < m * n := Nat.mul_pos hm hn
  have hne : List.replicate (m * n) c ≠ [] := by
    apply List.length_pos.mp
    rw [List.length_replicate]
    exact hmn
  have h1 : percentile pmin (positives (smoothedSamples (constGrid m n c))) = .ok c := by
    rw [hs, positives_replicate_pos _ hc]
    exact percentile_const hne (fun x hx => List.eq_of_mem_replicate hx) hd he
  have h2 : percentile pmax (smoothedSamples (constGrid m n c)) = .ok c := by
    rw [hs]
    exact percentile_const hne (fun x hx => List.eq_of_mem_replicate hx) ha hb
  rw [extractStats_of_steps h1 h2, if_neg (ne_of_gt hc)]

theorem extractStats_zeroGrid (pmax pmin : ℚ) (m n : ℕ) :
    extractStats pmax pmin (constGrid m n 0) = .error .emptySliceError := by
  unfold extractStats
  rw [smoothedSamples_constGrid, positives_replicate_zero]
  rfl

/-! ## Numerical bounds for the logarithmic conversion -/

theorem log_ten_bounds : (2.30249 : ℝ) < Real.log 10 ∧ Real.log 10 < 2.30268 := by
  have h1024 : Real.log 1024 = 10 * Real.log 2 := by
    rw [show (1024 : ℝ) = 2 ^ (10 : ℕ) by norm_num, Real.log_pow]
    push_cast
    ring
  have hsplit : Real.log 1024 = 3 * Real.log 10 + Real.log (128 / 125) := by
    rw [show (1024 : ℝ) = 10 ^ (3 : ℕ) * (128 / 125) by norm_num,
      Real.log_mul (by norm_num) (by norm_num), Real.log_pow]
    push_cast
    ring
  have hub : Real.log (128 / 125) ≤ 3 / 125 := by
    have := Real.log_le_sub_one_of_pos (show (0 : ℝ) < 128 / 125 by norm_num)
    linarith
  have hlb : (3 : ℝ) / 128 ≤ Real.log (128 / 125) := by
    have h := Real.log_le_sub_one_of_pos (show (0 : ℝ) < 125 / 128 by norm_num)
    have hinv : Real.log (125 / 128) = - Real.log (128 / 125) := by
      rw [show (125 : ℝ) / 128 = (128 / 125)⁻¹ by norm_num, Real.log_inv]
    linarith
  have l2a := Real.log_two_gt_d9
  have l2b := Real.log_two_lt_d9
  constructor <;> linarith

theorem twentyLogbTwo_bounds :
    (6.0203 : ℝ) < 20 * Real.logb 10 2 ∧ 20 * Real.logb 10 2 < 6.0209 := by
  obtain ⟨hl, hu⟩ := log_ten_bounds
  have hpos : (0 : ℝ) < Real.log 10 := by linarith
  have l2a := Real.log_two_gt_d9
  have l2b := Real.log_two_lt_d9
  have hlogb : Real.logb 10 2 = Real.log 2 / Real.log 10 := (Real.log_div_log).symm
  rw [hlogb]
  constructor
  · rw [show (20 : ℝ) * (Real.log 2 / Real.log 10) = 20 * Real.log 2 / Real.log 10 by ring,
      lt_div_iff hpos]
    nlinarith
  · rw [show (20 : ℝ) * (Real.log 2 / Real.log 10) = 20 * Real.log 2 / Real.log 10 by ring,
      div_lt_iff hpos]
    nlinarith

theorem stopsOf_self {c : ℚ} (hc : c ≠ 0) : stopsOf c c = 0 := by
  unfold stopsOf
  rw [div_self (by exact_mod_cast hc : ((c : ℚ) : ℝ) ≠ 0), Real.logb_one, mul_zero]

theorem stopsOf_two_pow {L : ℚ} (hL : 0 < L) (k : ℕ) :
    stopsOf (2 ^ k * L) L = (k : ℝ) * (20 * Real.logb 10 2) := by
  unfold stopsOf
  have hL' : ((L : ℚ) : ℝ) ≠ 0 := by
    exact_mod_cast ne_of_gt hL
  have hcast : (((2 ^ k * L : ℚ)) : ℝ) = 2 ^ k * ((L : ℚ) : ℝ) := by
    push_cast
    ring
  rw [hcast, mul_div_assoc, div_self hL', mul_one, Real.logb_pow]
  ring

/-! ## Facts about the whole pipeline -/

theorem tryBody_ok_elim {pmax pmin : ℚ} {f : SourceFile} {w : ℝ}
    (h : tryBody pmax pmin f = .ok w) :
    ∃ g mx mn, decodeStep f = .ok g ∧ extractStats pmax pmin g = .ok (mx, mn) ∧
      w = min (stopsOf mx mn) 120 := by
  unfold tryBody at h
  cases hd : decodeStep f with
  | error e =>
    rw [hd] at h
    exact absurd h (by simp)
  | ok g =>
    rw [hd] at h
    cases hs : extractStats pmax pmin g with
    | error e =>
      simp only [hs] at h
      exact absurd h (by simp)
    | ok p =>
      obtain ⟨mx, mn⟩ := p
      simp only [hs, Except.ok.injEq] at h
      exact ⟨g, mx, mn, rfl, hs, h.symm⟩

theorem tryBody_of_steps {pmax pmin : ℚ} {f : SourceFile} {g : Grid} {mx mn : ℚ}
    (hd : decodeStep f = .ok g) (hs : extractStats pmax pmin g = .ok (mx, mn)) :
    tryBody pmax pmin f = .ok (min (stopsOf mx mn) 120) := by
  unfold tryBody
  rw [hd]
  simp only [hs]

theorem tryBody_of_decode_error {pmax pmin : ℚ} {f : SourceFile} {e : PyExc}
    (hd : decodeStep f = .error e) : tryBody pmax pmin f = .error e := by
  unfold tryBody
  rw [hd]

theorem tryBody_of_stats_error {pmax pmin : ℚ} {f : SourceFile} {g : Grid} {e : PyExc}
    (hd : decodeStep f = .ok g) (hs : extractStats pmax pmin g = .error e) :
    tryBody pmax pmin f = .error e := by
  unfold tryBody
  rw [hd]
  simp only [hs]

theorem cdr_of_tryBody_ok {pmax pmin : ℚ} {f : SourceFile} {w : ℝ} (bpp : ℕ)
    (h : tryBody pmax pmin f = .ok w) :
    calculate_dynamic_range f bpp pmax pmin = some w := by
  unfold calculate_dynamic_range
  rw [h]

theorem cdr_of_tryBody_error {pmax pmin : ℚ} {f : SourceFile} {e : PyExc} (bpp : ℕ)
    (h : tryBody pmax pmin f = .error e) :
    calculate_dynamic_range f bpp pmax pmin = none := by
  unfold calculate_dynamic_range
  rw [h]

theorem cdr_some_elim {pmax pmin : ℚ} {f : SourceFile} {bpp : ℕ} {v : ℝ}
    (h : calculate_dynamic_range f bpp pmax pmin = some v) :
    tryBody pmax pmin f = .ok v := by
  unfold calculate_dynamic_range at h
  cases ht : tryBody pmax pmin f with
  | error e =>
    rw [ht] at h
    exact absurd h (by simp)
  | ok w =>
    rw [ht] at h
    simp only [Option.some.injEq] at h
    rw [h]

/-! ## Concrete inputs used in counterexamples and witnesses -/

/-- A constant 8-bit grayscale image of value 5 (a uniform gray frame). -/
def fileFlatPng : SourceFile :=
  { path := "flat.png", rawResult := .readFailure, stdResult := .okGray (constGrid 2 2 5) }

/-- An all-zero `m × n` standard-encoded image. -/
def fileZeroPng (m n : ℕ) : SourceFile :=
  { path := "zeros.png", rawResult := .readFailure, stdResult := .okGray (constGrid m n 0) }

/-- A file with a standard extension whose bytes `cv2.imread` cannot decode. -/
def fileCorruptPng : SourceFile :=
  { path := "corrupt.png", rawResult := .readFailure, stdResult := .readFailure }

/-- A file whose extension claims the raw format `.arw` but whose truncated
bytes make `rawpy.imread` raise. -/
def fileCorruptArw : SourceFile :=
  { path := "corrupt.arw", rawResult := .readFailure, stdResult := .readFailure }

/-- A raw file whose multi-channel decoded data is one pure-red RGB pixel. -/
def fileRedArw : SourceFile :=
  { path := "red.arw", rawResult := .rgbData [[(255, 0, 0)]], stdResult := .readFailure }

theorem decode_flatPng : decodeStep fileFlatPng = .ok (constGrid 2 2 5) := by
  have hp : isRawPath "flat.png" = false := by decide
  simp [decodeStep, fileFlatPng, hp]

theorem decode_zeroPng (m n : ℕ) : decodeStep (fileZeroPng m n) = .ok (constGrid m n 0) := by
  have hp : isRawPath "zeros.png" = false := by decide
  simp [decodeStep, fileZeroPng, hp]

theorem decode_corruptPng : decodeStep fileCorruptPng = .error .imreadNoneTypeError := by
  have hp : isRawPath "corrupt.png" = false := by decide
  simp [decodeStep, fileCorruptPng, hp]

theorem decode_corruptArw : decodeStep fileCorruptArw = .error .rawReadError := by
  have hp : isRawPath "corrupt.arw" = true := by decide
  simp [decodeStep, fileCorruptArw, hp]

theorem decode_redArw : decodeStep fileRedArw = .ok [[cvtColorBGR2GRAY (255, 0, 0)]] := by
  have hp : isRawPath "red.arw" = true := by decide
  simp [decodeStep, fileRedArw, hp]

theorem cdr_flatPng : calculate_dynamic_range fileFlatPng 14 (999 / 10) (1 / 10) = some 0 := by
  have hs : extractStats (999 / 10) (1 / 10) (constGrid 2 2 5) = .ok (5, 5) :=
    extractStats_constGrid (by norm_num) (by norm_num) (by norm_num) (by norm_num)
      (by norm_num) (by norm_num) (by norm_num)
  have ht := tryBody_of_steps decode_flatPng hs
  rw [stopsOf_self (by norm_num), min_eq_left (by norm_num)] at ht
  exact cdr_of_tryBody_ok 14 ht

/-! ## The claims -/

/-- C1: for every luminance field whose extracted percentile statistics are
`highValue` and `lowValue` (with `lowValue` strictly positive after the
guard), the pre-clamp result equals `20 · log10(highValue / lowValue)`;
and whenever `highValue = 2^k · lowValue` for a positive `lowValue = L`
and positive `k`, the pre-clamp stops value is within `0.001·k` of
`6.0206·k`. -/
theorem c1_stops_formula (percentile_max percentile_min : ℚ) (g : Grid)
    (highValue lowValue : ℚ) (L : ℚ) (k : ℕ)
    (hst : extractStats percentile_max percentile_min g = .ok (highValue, lowValue))
    (hlow : 0 < lowValue) (hL : 0 < L) (hk : 0 < k) :
    preClampStops percentile_max percentile_min g
      = some (20 * Real.logb 10 ((highValue : ℝ) / (lowValue : ℝ)))
    ∧ |stopsOf (2 ^ k * L) L - 6.0206 * (k : ℝ)| < (1 / 1000 : ℝ) * (k : ℝ) := by
  constructor
  · unfold preClampStops
    simp only [hst]
    rfl
  · rw [stopsOf_two_pow hL k]
    obtain ⟨hb1, hb2⟩ := twentyLogbTwo_bounds
    have hk1 : (1 : ℝ) ≤ (k : ℝ) := by exact_mod_cast hk
    have hkpos : (0 : ℝ) < (k : ℝ) := by linarith
    rw [abs_sub_lt_iff]
    constructor
    · have h := mul_lt_mul_of_pos_left
        (show 20 * Real.logb 10 2 - 6.0206 < 1 / 1000 by linarith) hkpos
      nlinarith [h]
    · have h := mul_lt_mul_of_pos_left
        (show 6.0206 - 20 * Real.logb 10 2 < 1 / 1000 by linarith) hkpos
      nlinarith [h]

/-- Witness for C1 at the 1×1 field `[[1]]` with the default percentiles,
`L = 1`, `k = 1`. -/
theorem c1_stops_formula_witness :
    preClampStops (999 / 10) (1 / 10) (constGrid 1 1 1)
      = some (20 * Real.logb 10 (((1 : ℚ) : ℝ) / ((1 : ℚ) : ℝ)))
    ∧ |stopsOf (2 ^ 1 * 1) 1 - 6.0206 * ((1 : ℕ) : ℝ)| < (1 / 1000 : ℝ) * ((1 : ℕ) : ℝ) :=
  c1_stops_formula (999 / 10) (1 / 10) (constGrid 1 1 1) 1 1 1 1
    (extractStats_constGrid (by norm_num) (by norm_num) (by norm_num) (by norm_num)
      (by norm_num) (by norm_num) (by norm_num))
    (by norm_num) (by norm_num) (by norm_num)

/-- C2: whenever the estimator succeeds (returns a number rather than
`None`), the returned stops value is at most the ceiling 120, for any
input and any percentile parameters. -/
theorem c2_ceiling_clamp (f : SourceFile) (bits_per_pixel : ℕ)
    (percentile_max percentile_min : ℚ) (v : ℝ)
    (h : calculate_dynamic_range f bits_per_pixel percentile_max percentile_min = some v) :
    v ≤ 120 := by
  obtain ⟨g, mx, mn, _, _, hv⟩ := tryBody_ok_elim (cdr_some_elim h)
  rw [hv]
  exact min_le_right _ _

/-- Witness for C2 at a uniform gray image whose estimate is `0`. -/
theorem c2_ceiling_clamp_witness : (0 : ℝ) ≤ 120 :=
  c2_ceiling_clamp fileFlatPng 14 (999 / 10) (1 / 10) 0 cdr_flatPng

/-- C3 counterexample: on the all-zero 50×50 grid the estimator returns
the generic `none` — the very same undistinguished value it returns for a
corrupt file — not a typed `DegenerateImageError` (no such typed failure
exists in the code's result channel). -/
theorem c3_no_typed_degenerate_error :
    calculate_dynamic_range (fileZeroPng 50 50) 14 (999 / 10) (1 / 10) = none
    ∧ calculate_dynamic_range fileCorruptPng 14 (999 / 10) (1 / 10)
      = calculate_dynamic_range (fileZeroPng 50 50) 14 (999 / 10) (1 / 10) := by
  have h1 : calculate_dynamic_range (fileZeroPng 50 50) 14 (999 / 10) (1 / 10) = none :=
    cdr_of_tryBody_error 14
      (tryBody_of_stats_error (decode_zeroPng 50 50)
        (extractStats_zeroGrid (999 / 10) (1 / 10) 50 50))
  have h2 : calculate_dynamic_range fileCorruptPng 14 (999 / 10) (1 / 10) = none :=
    cdr_of_tryBody_error 14 (tryBody_of_decode_error decode_corruptPng)
  exact ⟨h1, by rw [h1, h2]⟩

/-- C3 (amended): for every all-zero field of any size the pipeline hits
the empty positive-sample population, the resulting exception is swallowed
by the generic handler, and the estimator returns `None` — no crash and no
number, but also no typed `DegenerateImageError`. -/
theorem c3_zero_field_returns_none (m n bits_per_pixel : ℕ)
    (percentile_max percentile_min : ℚ) :
    tryBody percentile_max percentile_min (fileZeroPng m n) = .error .emptySliceError
    ∧ calculate_dynamic_range (fileZeroPng m n) bits_per_pixel
        percentile_max percentile_min = none := by
  have ht := tryBody_of_stats_error (decode_zeroPng m n)
    (extractStats_zeroGrid percentile_max percentile_min m n)
  exact ⟨ht, cdr_of_tryBody_error bits_per_pixel ht⟩

/-- C4: the high statistic is the high percentile over ALL smoothed
samples, the low statistic comes from the low percentile over only the
strictly-positive smoothed samples (every member of that population is
positive, and appending zero samples never changes it). -/
theorem c4_percentile_populations (percentile_max percentile_min : ℚ) (g : Grid)
    (highValue lowValue : ℚ)
    (h : extractStats percentile_max percentile_min g = .ok (highValue, lowValue)) :
    percentile percentile_max (smoothedSamples g) = .ok highValue
    ∧ (∃ minRaw, percentile percentile_min (positives (smoothedSamples g)) = .ok minRaw
        ∧ lowValue = (if minRaw = 0 then EPS else minRaw))
    ∧ (∀ x ∈ positives (smoothedSamples g), 0 < x)
    ∧ (∀ k, positives (smoothedSamples g ++ List.replicate k 0)
        = positives (smoothedSamples g)) := by
  obtain ⟨minRaw, h1, h2, h3⟩ := extractStats_ok_elim h
  exact ⟨h2, ⟨minRaw, h1, h3⟩, fun x hx => (mem_positives.mp hx).2,
    fun k => positives_append_zeros _ k⟩

/-- Witness for C4 at the 1×1 field `[[1]]` with the default percentiles. -/
theorem c4_percentile_populations_witness :
    percentile (999 / 10) (smoothedSamples (constGrid 1 1 1)) = .ok 1
    ∧ (∃ minRaw, percentile (1 / 10) (positives (smoothedSamples (constGrid 1 1 1)))
          = .ok minRaw ∧ (1 : ℚ) = (if minRaw = 0 then EPS else minRaw))
    ∧ (∀ x ∈ positives (smoothedSamples (constGrid 1 1 1)), 0 < x)
    ∧ (∀ k, positives (smoothedSamples (constGrid 1 1 1) ++ List.replicate k 0)
        = positives (smoothedSamples (constGrid 1 1 1))) :=
  c4_percentile_populations (999 / 10) (1 / 10) (constGrid 1 1 1) 1 1
    (extractStats_constGrid (by norm_num) (by norm_num) (by norm_num) (by norm_num)
      (by norm_num) (by norm_num) (by norm_num))

/-- C5: whenever statistic extraction succeeds, the low value delivered to
the ratio is the raw percentile with an exactly-zero result replaced by
the fixed epsilon `1e-10`, and it is strictly positive, so the
division-by-zero branch is unreachable. -/
theorem c5_epsilon_guard (percentile_max percentile_min : ℚ) (g : Grid)
    (highValue lowValue : ℚ)
    (h : extractStats percentile_max percentile_min g = .ok (highValue, lowValue)) :
    0 < lowValue
    ∧ ∀ minRaw, percentile percentile_min (positives (smoothedSamples g)) = .ok minRaw →
        lowValue = (if minRaw = 0 then EPS else minRaw) := by
  obtain ⟨minRaw, h1, _, h3⟩ := extractStats_ok_elim h
  have hpos : 0 < minRaw :=
    percentile_pos (fun x hx => (mem_positives.mp hx).2) h1
  constructor
  · rw [h3, if_neg (ne_of_gt hpos)]
    exact hpos
  · intro mr hmr
    rw [h1] at hmr
    simp only [Except.ok.injEq] at hmr
    rw [← hmr]
    exact h3

/-- Witness for C5 at the 1×1 field `[[1]]` with the default percentiles. -/
theorem c5_epsilon_guard_witness :
    (0 : ℚ) < 1
    ∧ ∀ minRaw, percentile (1 / 10) (positives (smoothedSamples (constGrid 1 1 1)))
        = .ok minRaw → (1 : ℚ) = (if minRaw = 0 then EPS else minRaw) :=
  c5_epsilon_guard (999 / 10) (1 / 10) (constGrid 1 1 1) 1 1
    (extractStats_constGrid (by norm_num) (by norm_num) (by norm_num) (by norm_num)
      (by norm_num) (by norm_num) (by norm_num))

/-- C6 counterexample: a file whose `.arw` extension claims a supported
raw format but whose truncated bytes make the decoder raise yields the
generic `none` — equal to the value returned for a degenerate all-zero
image — not a typed `DecodeError` (no such typed failure exists in the
code's result channel). -/
theorem c6_no_typed_decode_error :
    calculate_dynamic_range fileCorruptArw 14 (999 / 10) (1 / 10) = none
    ∧ calculate_dynamic_range (fileZeroPng 50 50) 14 (999 / 10) (1 / 10)
      = calculate_dynamic_range fileCorruptArw 14 (999 / 10) (1 / 10) := by
  have h1 : calculate_dynamic_range fileCorruptArw 14 (999 / 10) (1 / 10) = none :=
    cdr_of_tryBody_error 14 (tryBody_of_decode_error decode_corruptArw)
  have h2 : calculate_dynamic_range (fileZeroPng 50 50) 14 (999 / 10) (1 / 10) = none :=
    cdr_of_tryBody_error 14
      (tryBody_of_stats_error (decode_zeroPng 50 50)
        (extractStats_zeroGrid (999 / 10) (1 / 10) 50 50))
  exact ⟨h1, by rw [h1, h2]⟩

/-- C6 (amended): for a source whose decoding fails — a truncated `.arw`
raw file (the raw reader raises) or a corrupt standard image (`cv2.imread`
returns `None`) — the estimator attempts no fallback interpretation and
returns `None`; the failure is the same generic `None` as every other
failure, not a typed `DecodeError`. -/
theorem c6_decode_failure_returns_none (bits_per_pixel : ℕ)
    (percentile_max percentile_min : ℚ) :
    (tryBody percentile_max percentile_min fileCorruptArw = .error .rawReadError
      ∧ calculate_dynamic_range fileCorruptArw bits_per_pixel
          percentile_max percentile_min = none)
    ∧ (tryBody percentile_max percentile_min fileCorruptPng = .error .imreadNoneTypeError
      ∧ calculate_dynamic_range fileCorruptPng bits_per_pixel
          percentile_max percentile_min = none) := by
  have h1 : tryBody percentile_max percentile_min fileCorruptArw = .error .rawReadError :=
    tryBody_of_decode_error decode_corruptArw
  have h2 : tryBody percentile_max percentile_min fileCorruptPng
      = .error .imreadNoneTypeError :=
    tryBody_of_decode_error decode_corruptPng
  exact ⟨⟨h1, cdr_of_tryBody_error bits_per_pixel h1⟩,
    ⟨h2, cdr_of_tryBody_error bits_per_pixel h2⟩⟩

/-- C7: for every strictly-positive constant field, after smoothing the
extracted high and low statistics are equal (both equal to the constant)
and the pre-clamp stops value is `0`. -/
theorem c7_constant_field (m n : ℕ) (c percentile_max percentile_min : ℚ)
    (hm : 0 < m) (hn : 0 < n) (hc : 0 < c)
    (ha : 0 ≤ percentile_max) (hb : percentile_max ≤ 100)
    (hd : 0 ≤ percentile_min) (he : percentile_min ≤ 100) :
    extractStats percentile_max percentile_min (constGrid m n c) = .ok (c, c)
    ∧ stopsOf c c = 0 :=
  ⟨extractStats_constGrid hm hn hc ha hb hd he, stopsOf_self (ne_of_gt hc)⟩

/-- Witness for C7 at the 2×2 constant field of value 5 with the default
percentiles. -/
theorem c7_constant_field_witness :
    extractStats (999 / 10) (1 / 10) (constGrid 2 2 5) = .ok (5, 5)
    ∧ stopsOf 5 5 = 0 :=
  c7_constant_field 2 2 5 (999 / 10) (1 / 10) (by norm_num) (by norm_num) (by norm_num)
    (by norm_num) (by norm_num) (by norm_num) (by norm_num)

/-- C8: on a fixed field with a fixed low percentile, increasing the high
percentile never decreases the extracted high value, and (for positive
statistics) never decreases the pre-clamp stops value. -/
theorem c8_high_percentile_monotone (g : Grid) (percentile_min q1 q2 : ℚ)
    (mx1 mx2 mn1 mn2 : ℚ) (h12 : q1 ≤ q2)
    (h1 : extractStats q1 percentile_min g = .ok (mx1, mn1))
    (h2 : extractStats q2 percentile_min g = .ok (mx2, mn2))
    (hmx : 0 < mx1) :
    mx1 ≤ mx2 ∧ stopsOf mx1 mn1 ≤ stopsOf mx2 mn2 := by
  obtain ⟨r1, hA1, hB1, hC1⟩ := extractStats_ok_elim h1
  obtain ⟨r2, hA2, hB2, hC2⟩ := extractStats_ok_elim h2
  have hr : r1 = r2 := by
    rw [hA1] at hA2
    simp only [Except.ok.injEq] at hA2
    exact hA2
  have hmn : mn1 = mn2 := by
    rw [hC1, hC2, hr]
  have hmono : mx1 ≤ mx2 := percentile_mono h12 hB1 hB2
  refine ⟨hmono, ?_⟩
  rw [← hmn]
  have hmn1pos : 0 < mn1 := by
    have hposr : 0 < r1 := percentile_pos (fun x hx => (mem_positives.mp hx).2) hA1
    rw [hC1, if_neg (ne_of_gt hposr)]
    exact hposr
  unfold stopsOf
  have hmxR : (0 : ℝ) < ((mx1 : ℚ) : ℝ) := by exact_mod_cast hmx
  have hmnR : (0 : ℝ) < ((mn1 : ℚ) : ℝ) := by exact_mod_cast hmn1pos
  have hmonoR : ((mx1 : ℚ) : ℝ) ≤ ((mx2 : ℚ) : ℝ) := by exact_mod_cast hmono
  have hdiv : ((mx1 : ℚ) : ℝ) / ((mn1 : ℚ) : ℝ) ≤ ((mx2 : ℚ) : ℝ) / ((mn1 : ℚ) : ℝ) :=
    (div_le_div_iff_of_pos_right hmnR).mpr hmonoR
  have hquotpos : (0 : ℝ) < ((mx1 : ℚ) : ℝ) / ((mn1 : ℚ) : ℝ) := div_pos hmxR hmnR
  have hlog := Real.logb_le_logb_of_le (by norm_num : (1 : ℝ) < 10) hquotpos hdiv
  linarith

/-- Witness for C8 at the 2×2 constant field of value 5 with high
percentiles 50 and 99.9. -/
theorem c8_high_percentile_monotone_witness :
    (5 : ℚ) ≤ 5 ∧ stopsOf 5 5 ≤ stopsOf 5 5 :=
  c8_high_percentile_monotone (constGrid 2 2 5) (1 / 10) 50 (999 / 10) 5 5 5 5
    (by norm_num)
    (extractStats_constGrid (by norm_num) (by norm_num) (by norm_num) (by norm_num)
      (by norm_num) (by norm_num) (by norm_num))
    (extractStats_constGrid (by norm_num) (by norm_num) (by norm_num) (by norm_num)
      (by norm_num) (by norm_num) (by norm_num))
    (by norm_num)

/-- C9: evaluation exhibiting the channel-order slip. The multi-channel
raw path feeds rawpy's RGB output to `cv2.COLOR_BGR2GRAY`, so a pure-red
pixel `(255, 0, 0)` is reduced with weight `0.114` on red, producing
`29.07` — not the `76.245` that the standard luma weights (`0.299` on red)
prescribe. -/
theorem c9_luma_weights_swapped :
    decodeStep fileRedArw = .ok [[cvtColorBGR2GRAY (255, 0, 0)]]
    ∧ cvtColorBGR2GRAY (255, 0, 0) = 2907 / 100
    ∧ lumaRec601 255 0 0 = 15249 / 200
    ∧ cvtColorBGR2GRAY (255, 0, 0) ≠ lumaRec601 255 0 0 :=
  ⟨decode_redArw, by norm_num [cvtColorBGR2GRAY], by norm_num [lumaRec601],
    by norm_num [cvtColorBGR2GRAY, lumaRec601]⟩

/-- C10: evaluation exhibiting the truthiness slip. On a uniform gray
image the estimator succeeds with exactly `0.0` stops, yet the CLI's
`if dynamic_range:` treats `0.0` as falsy and prints nothing. -/
theorem c10_zero_estimate_skipped :
    calculate_dynamic_range fileFlatPng 14 (999 / 10) (1 / 10) = some 0
    ∧ mainLoop [fileFlatPng] = [] := by
  refine ⟨cdr_flatPng, ?_⟩
  have hext : hasImageExtension fileFlatPng.path = true := by decide
  unfold mainLoop
  rw [List.filterMap_cons]
  simp only [hext, cdr_flatPng]
  simp
